import Mathlib

/-!
Verification of the SPIRALS 3X RHIB-racing engine (race simulation,
movement model, outcome engine, payout dispatcher) against its
natural-language specification.  Every definition below is a shallow
embedding of the corresponding JavaScript function in the repository;
JS numbers appearing in probability computations are modelled as exact
rationals, 32-bit integer arithmetic is modelled as naturals reduced
mod 2^32, and the per-race RNG is the seeded generator `makeRng`.
-/

namespace Spirals

/-! ### Seeded RNG (`makeRng`)

`makeRng(seed)` keeps a running state `t` (initially `seed >>> 0`),
adds `0x6d2b79f5` before every draw, and mixes the 32-bit residue of
`t` into a uint32 which is divided by 2^32.  All JS bitwise operators
reduce their operands mod 2^32, so the mixing is modelled on naturals
below 2^32. -/

def UINT32 : Nat := 4294967296

def MULBERRY_INC : Nat := 0x6d2b79f5

/-- One draw of the mixer of `makeRng`, as the uint32 numerator of the
returned float: the body of the inner `rng` function evaluated at
running state `t`. -/
def mix32 (t : Nat) : Nat :=
  let x0 := t % UINT32
  let x1 := (Nat.xor x0 (x0 >>> 15)) * (x0 ||| 1) % UINT32
  let m2 := (Nat.xor x1 (x1 >>> 7)) * (x1 ||| 61) % UINT32
  let x2 := Nat.xor x1 ((x1 + m2) % UINT32)
  (Nat.xor x2 (x2 >>> 14)) % UINT32

/-- Numerator of the `n`-th float produced by `makeRng seed` (0-based):
the state after `n+1` increments of `0x6d2b79f5`, mixed. -/
def makeRngNum (seed n : Nat) : Nat :=
  mix32 (seed % UINT32 + (n + 1) * MULBERRY_INC)

/-- The `n`-th float of `makeRng seed`, as an exact rational. -/
def makeRngQ (seed : Nat) : Nat → ℚ :=
  fun n => (makeRngNum seed n : ℚ) / (UINT32 : ℚ)

/-! ### Game configuration (`TIERS`, `COLOURS`, track constants) -/

structure Tier where
  key : String
  tokenCost : Nat
  payouts : Nat → Nat

def lowTier : Tier :=
  { key := "low", tokenCost := 1,
    payouts := fun p =>
      if p = 1 then 250000 else if p = 2 then 75000 else if p = 3 then 25000
      else if p = 4 then 10000 else if p = 5 then 5000 else 0 }

def standardTier : Tier :=
  { key := "standard", tokenCost := 2,
    payouts := fun p =>
      if p = 1 then 1000000 else if p = 2 then 250000 else if p = 3 then 60000
      else if p = 4 then 30000 else if p = 5 then 15000 else 0 }

def highTier : Tier :=
  { key := "high", tokenCost := 3,
    payouts := fun p =>
      if p = 1 then 2000000 else if p = 2 then 500000 else if p = 3 then 120000
      else if p = 4 then 60000 else if p = 5 then 30000 else 0 }

/-- Own properties of the `TIERS` object literal: exactly the three
tier entries.  JS bracket lookup also consults the prototype chain;
that part is modelled by `jsTiersLookup` below. -/
def TIERS (k : String) : Option Tier :=
  if k = "low" then some lowTier
  else if k = "standard" then some standardTier
  else if k = "high" then some highTier
  else none

/-- Resolution `TIERS[tierKey] || TIERS.standard` as a tier value,
valid for keys that do not hit the `Object.prototype` chain — in
particular for every deployed key, since the slash command offers only
low/standard/high.  The full JS lookup, inherited properties included,
is `tierOrStandard` below. -/
def tierOf (k : String) : Tier :=
  (TIERS k).getD standardTier

/-- Property names inherited from `Object.prototype`, visible to
bracket lookup on any plain object literal such as `TIERS`. -/
def protoKeys : List String :=
  ["constructor", "hasOwnProperty", "isPrototypeOf", "propertyIsEnumerable",
   "toLocaleString", "toString", "valueOf", "__proto__",
   "__defineGetter__", "__defineSetter__", "__lookupGetter__", "__lookupSetter__"]

/-- Value of the JS lookup `TIERS[k]`: an own tier entry, a truthy
value inherited from `Object.prototype`, or `undefined`. -/
inductive JsTierValue where
  | tier (t : Tier)
  | inherited
  | undef

/-- Lookup `TIERS[k]` with the prototype chain: own properties first,
then the inherited `Object.prototype` properties (all truthy), else
`undefined`. -/
def jsTiersLookup (k : String) : JsTierValue :=
  match TIERS k with
  | some t => JsTierValue.tier t
  | none => if k ∈ protoKeys then JsTierValue.inherited else JsTierValue.undef

/-- The full JS expression `TIERS[tierKey] || TIERS.standard`: the
fallback fires only when the lookup is falsy, i.e. `undefined`; a
truthy inherited value is kept as is. -/
def tierOrStandard (k : String) : JsTierValue :=
  match jsTiersLookup k with
  | JsTierValue.undef => JsTierValue.tier standardTier
  | v => v

/-- Reading `.tokenCost` off the looked-up value: a tier object has
its cost, while an inherited `Object.prototype` value (a function or
the prototype object) has no `tokenCost` property — `undefined`,
modelled as `none`. -/
def jsTokenCost : JsTierValue → Option Nat
  | JsTierValue.tier t => some t.tokenCost
  | JsTierValue.inherited => none
  | JsTierValue.undef => none

def colourKeys : List String := ["red", "blue", "green", "yellow", "purple"]

/-- Lookup `COLOUR_BY_KEY.get(colourKey) || COLOUR_BY_KEY.get("red")`,
reduced to the colour key. -/
def colourOf (k : String) : String :=
  if k ∈ colourKeys then k else "red"

def TRACK_LEN : Nat := 18

def SOLO_COOLDOWN_SEC : Nat := 90

def PARTY_COOLDOWN_SEC : Nat := 150

/-! ### Movement model

All the per-tick step functions draw from the race RNG.  The RNG is
modelled as a stream `rho : Nat -> Rat` of draw values together with a
draw counter that every function threads through, consuming a draw
exactly where the JS code calls `rng()`. -/

/-- Function `rollBaseStep` : base step from a skewed discrete distribution. -/
def rollBaseStep (rho : Nat → ℚ) (c : Nat) : Int × Nat :=
  let r := rho c
  (if 992/1000 < r then 3 else if 93/100 < r then 2 else if 58/100 < r then 1 else 0,
   c + 1)

inductive RaceEvent where
  | boost
  | stall
deriving DecidableEq

/-- Function `maybeEvent` : boost below 0.06, stall below 0.10, else none. -/
def maybeEvent (rho : Nat → ℚ) (c : Nat) : Option RaceEvent × Nat :=
  let r := rho c
  (if r < 6/100 then some RaceEvent.boost
   else if r < 10/100 then some RaceEvent.stall
   else none,
   c + 1)

/-- Tier scaling strength of the house edge:
`high` 1.0, `standard` 0.7, otherwise 0.55. -/
def tierStrength (tierKey : String) : ℚ :=
  if tierKey = "high" then 1 else if tierKey = "standard" then 7/10 else 11/20

/-- Function `houseEdgeModifier(rankIndex, total, tierKey, rng)`: each of the four
rank conditions is tested in order and draws one RNG value exactly when
its rank guard holds (JS `&&` short-circuits). -/
def houseEdgeModifier (rho : Nat → ℚ) (rankIndex total : Nat) (tierKey : String)
    (c : Nat) : Int × Nat :=
  let s := tierStrength tierKey
  let p1 : Int × Nat :=
    if rankIndex = 0 then ((if rho c < 55/100 * s then -1 else 0), c + 1) else (0, c)
  let p2 : Int × Nat :=
    if rankIndex = 1 then ((if rho p1.2 < 25/100 * s then -1 else 0), p1.2 + 1)
    else (0, p1.2)
  let p3 : Int × Nat :=
    if total - 2 ≤ rankIndex then ((if rho p2.2 < 45/100 * s then 1 else 0), p2.2 + 1)
    else (0, p2.2)
  let p4 : Int × Nat :=
    if total - 1 ≤ rankIndex then ((if rho p3.2 < 65/100 * s then 1 else 0), p3.2 + 1)
    else (0, p3.2)
  (p1.1 + p2.1 + p3.1 + p4.1, p4.2)

/-- Tier multiplier of the streak penalty:
`high` 1.15, `standard` 1.0, otherwise 0.85. -/
def streakMult (tierKey : String) : ℚ :=
  if tierKey = "high" then 115/100 else if tierKey = "standard" then 1 else 85/100

/-- Trigger probability of the streak penalty for a positive streak `w`:
`min(0.22, 0.08 + w*0.045)` scaled by the tier multiplier. -/
def streakChance (w : Int) (tierKey : String) : ℚ :=
  min (22/100) (8/100 + (w : ℚ) * 45/1000) * streakMult tierKey

/-- Function `streakPenalty(winStreak, tierKey, rng)` : returns 0 without drawing
when the streak is not positive, otherwise draws once and yields -1
below the trigger probability. -/
def streakPenalty (rho : Nat → ℚ) (winStreak : Int) (tierKey : String)
    (c : Nat) : Int × Nat :=
  if winStreak ≤ 0 then (0, c)
  else (if rho c < streakChance winStreak tierKey then -1 else 0, c + 1)

/-- Function `finalSprintBoost(pos, rng)` : within the last 5 cells, +1 with
probability 0.18; draws only when the guard holds. -/
def finalSprintBoost (rho : Nat → ℚ) (pos : Nat) (c : Nat) : Int × Nat :=
  if pos < TRACK_LEN - 5 then (0, c)
  else (if rho c < 18/100 then 1 else 0, c + 1)

/-! ### Racers and one movement update -/

structure Racer where
  key : String
  pos : Nat
  finished : Bool
  finishTick : Option Nat
deriving DecidableEq

def defRacer : Racer :=
  { key := "", pos := 0, finished := false, finishTick := none }

/-- Guard `if (r.key === bet.key) step += streakPenalty(...)` — the streak
penalty applies only to a backed racer. -/
def streakPenaltyIf (bk : Bool) (rho : Nat → ℚ) (ws : Int) (tierKey : String)
    (c : Nat) : Int × Nat :=
  if bk then streakPenalty rho ws tierKey c else (0, c)

/-- The body of the per-racer movement loop of `runSoloRace` /
`runPartyRace`: compute the raw step through the ordered pipeline,
clamp it to [0,3], add it to the position, and cap at `TRACK_LEN - 1`
marking the racer finished at the current tick when the cap is hit.
Returns (updated racer, clamped step actually added, next counter). -/
def moveRacerAux (rho : Nat → ℚ) (tierKey : String) (winStreak : Int) (backed : Bool)
    (tick rankIndex total : Nat) (r : Racer) (c : Nat) : Racer × Nat × Nat :=
  if r.finished then (r, 0, c)
  else
    let b := rollBaseStep rho c
    let e := maybeEvent rho b.2
    let step1 : Int :=
      match e.1 with
      | some RaceEvent.boost => b.1 + 1
      | some RaceEvent.stall => max 0 (b.1 - 1)
      | none => b.1
    let h := houseEdgeModifier rho rankIndex total tierKey e.2
    let f := finalSprintBoost rho r.pos h.2
    let p := streakPenaltyIf backed rho winStreak tierKey f.2
    let step4 := step1 + h.1 + f.1 + p.1
    let s := (min 3 (max 0 step4)).toNat
    let pos1 := r.pos + s
    if TRACK_LEN ≤ pos1 then
      ({ r with pos := TRACK_LEN - 1, finished := true, finishTick := some tick }, s, p.2)
    else
      ({ r with pos := pos1 }, s, p.2)

/-! ### Ranking and placement -/

/-- Comparator of the pre-tick ranking sort `(a, b) => b.pos - a.pos`:
descending position (stable). -/
def posDescLE (a b : Racer) : Prop := b.pos ≤ a.pos

instance : DecidableRel posDescLE := fun a b => Nat.decLe b.pos a.pos

instance : IsTotal Racer posDescLE :=
  ⟨fun a b => (Nat.le_total b.pos a.pos).imp id id⟩

instance : IsTrans Racer posDescLE :=
  ⟨fun _ _ _ h1 h2 => Nat.le_trans h2 h1⟩

/-- Lookup `rankMap.get(r.key) ?? 2` over the descending-position order. -/
def rankOf (order : List Racer) (k : String) : Nat :=
  match order.findIdx? (fun r => r.key == k) with
  | some i => i
  | none => 2

/-- Comparator of the finalization sort
`(a, b) => a.finishTick - b.finishTick || b.pos - a.pos`:
ascending finish tick, ties broken by descending position (stable). -/
def placeLE (a b : Racer) : Prop :=
  a.finishTick.getD 0 < b.finishTick.getD 0 ∨
    (a.finishTick.getD 0 = b.finishTick.getD 0 ∧ b.pos ≤ a.pos)

instance : DecidableRel placeLE := fun a b => by
  unfold placeLE
  exact inferInstance

instance : IsTotal Racer placeLE := by
  constructor
  intro a b
  rcases Nat.lt_trichotomy (a.finishTick.getD 0) (b.finishTick.getD 0) with h | h | h
  · exact Or.inl (Or.inl h)
  · rcases Nat.le_total b.pos a.pos with hp | hp
    · exact Or.inl (Or.inr ⟨h, hp⟩)
    · exact Or.inr (Or.inr ⟨h.symm, hp⟩)
  · exact Or.inr (Or.inl h)

instance : IsTrans Racer placeLE := by
  constructor
  intro a b c hab hbc
  rcases hab with h1 | ⟨h1, h1p⟩
  · rcases hbc with h2 | ⟨h2, _⟩
    · exact Or.inl (Nat.lt_trans h1 h2)
    · exact Or.inl (h2 ▸ h1)
  · rcases hbc with h2 | ⟨h2, h2p⟩
    · exact Or.inl (h1 ▸ h2)
    · exact Or.inr ⟨h1.trans h2, Nat.le_trans h2p h1p⟩

/-- Assignment `places = racers.sort(cmp).map((r, i) => (r, i + 1))`:
place numbers assigned from `i0` upward. -/
def assignPlaces (i0 : Nat) : List Racer → List (Racer × Nat)
  | [] => []
  | r :: rest => (r, i0) :: assignPlaces (i0 + 1) rest

/-- Final placement: stable sort by ascending finish tick (ties by
descending position), places `1..n`. -/
def computePlaces (rs : List Racer) : List (Racer × Nat) :=
  assignPlaces 1 (List.insertionSort placeLE rs)

/-- Comparison `places[0].finishTick === places[1].finishTick`. -/
def photoFinishB (places : List (Racer × Nat)) : Bool :=
  decide ((places.getD 0 (defRacer, 0)).1.finishTick =
          (places.getD 1 (defRacer, 0)).1.finishTick)

/-! ### The tick loop (`runSoloRace` / `runPartyRace` intervals)

Both interval bodies are the same simulation tick up to configuration:
the tier, the commentary probability (0.18 solo, 0.2 party) and which
racers carry a backed player's win streak.  The latch variable
(`raceFinalized` / `party.finalized`) short-circuits the whole tick. -/

structure SimCfg where
  tierKey : String
  commentaryChance : ℚ
  backedStreak : String → Option Int

/-- Solo configuration: the streak penalty applies only to the backed
colour, with the entering player's current win streak. -/
def soloCfg (tierKey betKey : String) (winStreak : Int) : SimCfg :=
  { tierKey := tierKey, commentaryChance := 18/100,
    backedStreak := fun k => if k = betKey then some winStreak else none }

/-- Party configuration: each colour chosen by a player carries that
player's win streak. -/
def partyCfg (tierKey : String) (players : List (String × String))
    (streakOf : String → Int) : SimCfg :=
  { tierKey := tierKey, commentaryChance := 20/100,
    backedStreak := fun k =>
      match players.find? (fun pr => pr.2 == k) with
      | some pr => some (streakOf pr.1)
      | none => none }

structure SimState where
  racers : List Racer
  tick : Nat
  finalized : Bool
  places : List (Racer × Nat)
  photo : Bool
  c : Nat

/-- The `for (const r of racers)` movement loop: update every racer in
array order, threading the RNG counter. -/
def moveAll (rho : Nat → ℚ) (cfg : SimCfg) (order : List Racer) (total tick : Nat) :
    List Racer → Nat → List Racer × Nat
  | [], c => ([], c)
  | r :: rest, c =>
      let ws := (cfg.backedStreak r.key).getD 0
      let bk := (cfg.backedStreak r.key).isSome
      let m := moveRacerAux rho cfg.tierKey ws bk tick (rankOf order r.key) total r c
      let q := moveAll rho cfg order total tick rest m.2.2
      (m.1 :: q.1, q.2)

/-- One interval firing: latch check, tick increment, ranking sort,
commentary draw(s), movement loop, and finalization when every racer
has finished.  The boolean reports whether finalization fired. -/
def simTick (rho : Nat → ℚ) (cfg : SimCfg) (s : SimState) : SimState × Bool :=
  if s.finalized then (s, false)
  else
    let tick := s.tick + 1
    let order := List.insertionSort posDescLE s.racers
    let c0 := if rho s.c < cfg.commentaryChance then s.c + 2 else s.c + 1
    let mv := moveAll rho cfg order s.racers.length tick s.racers c0
    if mv.1.all (fun r => r.finished) then
      let pl := computePlaces mv.1
      ({ racers := mv.1, tick := tick, finalized := true, places := pl,
         photo := photoFinishB pl, c := mv.2 }, true)
    else
      ({ racers := mv.1, tick := tick, finalized := false, places := s.places,
         photo := s.photo, c := mv.2 }, false)

/-- All five colours start at position 0, unfinished. -/
def initRacers : List Racer :=
  colourKeys.map (fun k => { key := k, pos := 0, finished := false, finishTick := none })

def initSim : SimState :=
  { racers := initRacers, tick := 0, finalized := false, places := [],
    photo := false, c := 0 }

/-- The simulation after `n` interval firings. -/
def runSim (rho : Nat → ℚ) (cfg : SimCfg) : Nat → SimState
  | 0 => initSim
  | n + 1 => (simTick rho cfg (runSim rho cfg n)).1

/-- Number of finalizations fired during the first `n` interval firings. -/
def runSimCount (rho : Nat → ℚ) (cfg : SimCfg) : Nat → Nat
  | 0 => 0
  | n + 1 => runSimCount rho cfg n + (if (simTick rho cfg (runSim rho cfg n)).2 then 1 else 0)

/-! ### Outcome engine (per-player stats update at finalization) -/

structure PlayerStats where
  races : Nat
  wins : Nat
  totalWon : Nat
  bestFinish : Nat
  podiums : Nat
  winStreak : Nat
  bestWinStreak : Nat
deriving DecidableEq

def newUserStats : PlayerStats :=
  { races := 0, wins := 0, totalWon := 0, bestFinish := 99, podiums := 0,
    winStreak := 0, bestWinStreak := 0 }

/-- The stats mutation performed at finalization for a player who
finished in `place` winning `amount` (identical in `runSoloRace` and
`runPartyRace`): streak update, best finish, wins, podiums, total. -/
def applyPlacement (s : PlayerStats) (place amount : Nat) : PlayerStats :=
  let s1 :=
    if place = 1 then
      { s with winStreak := s.winStreak + 1,
               bestWinStreak := max s.bestWinStreak (s.winStreak + 1) }
    else { s with winStreak := 0 }
  { s1 with bestFinish := min s1.bestFinish place,
            wins := if place = 1 then s1.wins + 1 else s1.wins,
            podiums := if place ≤ 3 then s1.podiums + 1 else s1.podiums,
            totalWon := s1.totalWon + amount }

/-! ### Payout dispatcher (`enqueuePayout`)

One promise chain per guild: each enqueued task awaits the whole chain
so far, sleeps 850 ms, checks the freeze flag at send time and then
performs the external credit call.  A chain is modelled as the ordered
list of its tasks; a schedule is any trace whose per-guild
subsequences are exactly the chains' event sequences. -/

structure PayoutTask where
  userId : String
  amount : Nat
deriving DecidableEq

inductive PEvent where
  | sleepDelay (guildId : String) (taskIdx : Nat) (ms : Nat)
  | credit (guildId : String) (taskIdx : Nat) (userId : String) (amount : Nat)
deriving DecidableEq

def PEvent.guildId : PEvent → String
  | PEvent.sleepDelay g _ _ => g
  | PEvent.credit g _ _ _ => g

/-- Events produced by the task at chain index `i`: the 850 ms
inter-send sleep, then (unless payouts are frozen at send time) the
external credit call. -/
def taskEvents (frozen : Nat → Bool) (g : String) (i : Nat) (t : PayoutTask) :
    List PEvent :=
  PEvent.sleepDelay g i 850 ::
    (if frozen i then [] else [PEvent.credit g i t.userId t.amount])

/-- Event sequence of a guild chain whose tasks are numbered from `i0`:
tasks run strictly one after the other (`prev.then(...)`). -/
def chainEventsFrom (frozen : Nat → Bool) (g : String) (i0 : Nat) :
    List PayoutTask → List PEvent
  | [] => []
  | t :: rest => taskEvents frozen g i0 t ++ chainEventsFrom frozen g (i0 + 1) rest

def chainEvents (frozen : Nat → Bool) (g : String) (ts : List PayoutTask) :
    List PEvent :=
  chainEventsFrom frozen g 0 ts

/-- A trace is a valid schedule of per-guild queues when, for every
guild, the subsequence of its events is exactly its chain's event
sequence (the event loop may interleave different guilds freely). -/
def IsSchedule (queues : List (String × List PayoutTask)) (frozen : Nat → Bool)
    (tr : List PEvent) : Prop :=
  ∀ p ∈ queues, tr.filter (fun e => e.guildId == p.1) = chainEvents frozen p.1 p.2

/-- Event `x` occurs strictly before event `y` in `tr`. -/
def Before (x y : PEvent) (tr : List PEvent) : Prop :=
  ∃ l1 l2 l3, tr = l1 ++ x :: l2 ++ y :: l3

/-! ### Race entry (`runSoloRace` prologue, `runPartyRace` prologue)

The persistent stores (token balances, season stats, cooldown maps,
active-race registries) are modelled as total maps with the JS
lazy-creation defaults (`getTok`, `getStats`) built in. -/

structure SysState where
  tokens : String → Nat
  statsRaces : String → Nat
  soloLast : String → Nat
  partyLast : String → Nat
  activeSolo : List String
  activeCountByGuild : String → Nat
  freezeRaces : Bool
  seasonExpired : Bool

/-- Function `onCooldown(map, userId, cd)` : seconds left, 0 when expired
(`left > 0 ? left : 0`). -/
def cooldownLeft (last cd now : Nat) : Nat :=
  last + cd - now

/-- Function `seasonCheckAndResetIfNeeded()` : when the season window has
elapsed, all player stats are cleared (token balances untouched). -/
def applySeasonReset (st : SysState) : SysState :=
  if st.seasonExpired then { st with statsRaces := fun _ => 0 } else st

inductive RejectReason where
  | maintenance
  | guildCap
  | cooldown
  | duplicateRace
  | insufficientTokens
deriving DecidableEq

structure SoloStart where
  userId : String
  tier : Tier
  betKey : String

/-- The synchronous prologue of `runSoloRace`: freeze check, season
housekeeping, per-guild active cap, cooldown, duplicate-race check,
tier resolution and token check — only then debit, races increment,
registry insertion, cooldown stamp and colour resolution. -/
def soloEntry (st : SysState) (guildId userId : String) (now : Nat)
    (tierKey colourKey : String) (maxActive : Nat) :
    SysState × Except RejectReason SoloStart :=
  if st.freezeRaces then (st, Except.error RejectReason.maintenance)
  else
    let st1 := applySeasonReset st
    if maxActive ≤ st1.activeCountByGuild guildId then
      (st1, Except.error RejectReason.guildCap)
    else if cooldownLeft (st1.soloLast userId) SOLO_COOLDOWN_SEC now ≠ 0 then
      (st1, Except.error RejectReason.cooldown)
    else if userId ∈ st1.activeSolo then
      (st1, Except.error RejectReason.duplicateRace)
    else
      let tier := tierOf tierKey
      if st1.tokens userId < tier.tokenCost then
        (st1, Except.error RejectReason.insufficientTokens)
      else
        let st2 :=
          { st1 with
            tokens := fun u => if u = userId then st1.tokens u - tier.tokenCost
                               else st1.tokens u,
            statsRaces := fun u => if u = userId then st1.statsRaces u + 1
                                   else st1.statsRaces u,
            activeSolo := userId :: st1.activeSolo,
            activeCountByGuild := fun g =>
              if g = guildId then st1.activeCountByGuild g + 1
              else st1.activeCountByGuild g,
            soloLast := fun u => if u = userId then now else st1.soloLast u }
        (st2, Except.ok { userId := userId, tier := tier, betKey := colourOf colourKey })

structure Party where
  hostId : String
  players : List (String × String)
  stateLobby : Bool
  finalized : Bool
  tierKey : String

inductive PartyStartResult where
  | skipped
  | cancelled
  | started
deriving DecidableEq

/-- The start-time re-check loop of `runPartyRace`: the first player
(in join order) on cooldown or short of tokens, if any. -/
def firstPartyFailure (st : SysState) (cost now : Nat) :
    List (String × String) → Option RejectReason
  | [] => none
  | pr :: rest =>
      if cooldownLeft (st.partyLast pr.1) PARTY_COOLDOWN_SEC now ≠ 0 then
        some RejectReason.cooldown
      else if st.tokens pr.1 < cost then some RejectReason.insufficientTokens
      else firstPartyFailure st cost now rest

/-- The debit loop of `runPartyRace`: every participant is debited the
tier cost, cooldown-stamped and has their races counter incremented. -/
def debitParty (cost now : Nat) : List (String × String) → SysState → SysState
  | [], st => st
  | pr :: rest, st =>
      debitParty cost now rest
        { st with
          tokens := fun u => if u = pr.1 then st.tokens u - cost else st.tokens u,
          partyLast := fun u => if u = pr.1 then now else st.partyLast u,
          statsRaces := fun u => if u = pr.1 then st.statsRaces u + 1
                                 else st.statsRaces u }

/-- The prologue of `runPartyRace`: freeze check, season housekeeping,
lobby-state guard, minimum-size check, then the all-participant
re-check; only when every participant passes are the debits applied
and the party transitions to RUNNING. -/
def partyStart (st : SysState) (p : Party) (now : Nat) :
    SysState × PartyStartResult :=
  if st.freezeRaces then (st, PartyStartResult.skipped)
  else
    let st1 := applySeasonReset st
    if ¬p.stateLobby ∨ p.finalized then (st1, PartyStartResult.skipped)
    else
      let tier := tierOf p.tierKey
      if p.players.length < 2 then (st1, PartyStartResult.cancelled)
      else
        match firstPartyFailure st1 tier.tokenCost now p.players with
        | some _ => (st1, PartyStartResult.cancelled)
        | none => (debitParty tier.tokenCost now p.players st1, PartyStartResult.started)

def dfltTask : PayoutTask := { userId := "", amount := 0 }

/-- Two guilds with one payout task each, used to exhibit the absence
of cross-guild ordering. -/
def demoQueues : List (String × List PayoutTask) :=
  [("g1", [{ userId := "a", amount := 1 }]), ("g2", [{ userId := "b", amount := 2 }])]

/-- An example system state used to instantiate entry theorems. -/
def exampleState : SysState :=
  { tokens := fun _ => 0, statsRaces := fun _ => 0, soloLast := fun _ => 0,
    partyLast := fun _ => 0, activeSolo := [], activeCountByGuild := fun _ => 0,
    freezeRaces := false, seasonExpired := false }

/-- An example two-player party lobby. -/
def exampleParty : Party :=
  { hostId := "h", players := [("h", "red"), ("u2", "blue")], stateLobby := true,
    finalized := false, tierKey := "low" }

/-! ## Theorems -/

theorem tierStrength_low : tierStrength "low" = 11/20 := by
  rw [tierStrength, if_neg (by decide), if_neg (by decide)]

theorem tierStrength_standard : tierStrength "standard" = 7/10 := by
  rw [tierStrength, if_neg (by decide), if_pos rfl]

theorem tierStrength_high : tierStrength "high" = 1 := by
  rw [tierStrength, if_pos rfl]

theorem streakMult_low : streakMult "low" = 85/100 := by
  rw [streakMult, if_neg (by decide), if_neg (by decide)]

theorem streakMult_standard : streakMult "standard" = 1 := by
  rw [streakMult, if_neg (by decide), if_pos rfl]

theorem streakMult_high : streakMult "high" = 115/100 := by
  rw [streakMult, if_pos rfl]

/-- C4: on a first-place finish the win streak increments by exactly 1,
on any other finish it resets to 0, and the best win streak never
decreases (identical update in solo and party finalization). -/
theorem claim_c4_winstreak (s : PlayerStats) (place amount : Nat) :
    (applyPlacement s place amount).winStreak =
      (if place = 1 then s.winStreak + 1 else 0) ∧
    s.bestWinStreak ≤ (applyPlacement s place amount).bestWinStreak := by
  by_cases h : place = 1 <;>
    simp [applyPlacement, h, Nat.le_max_left]

/-- C5: `streakPenalty` contributes 0 for a non-positive streak (no RNG
draw), otherwise it draws once and contributes -1 exactly when the draw
is below `min(0.22, 0.08 + 0.045*w)` scaled by the tier multiplier
(0.85 low, 1.00 standard, 1.15 high); for the same positive streak the
high-tier trigger probability strictly exceeds the low-tier one. -/
theorem claim_c5_streak_penalty (rho : Nat → ℚ) (w : Int) (tierKey : String) (c : Nat) :
    (w ≤ 0 → streakPenalty rho w tierKey c = (0, c)) ∧
    (1 ≤ w → streakPenalty rho w tierKey c =
      (if rho c < streakChance w tierKey then -1 else 0, c + 1)) ∧
    (streakMult "low" = 85/100 ∧ streakMult "standard" = 1 ∧ streakMult "high" = 115/100) ∧
    (∀ w' : Int, 1 ≤ w' → streakChance w' "low" < streakChance w' "high") := by
  refine ⟨?_, ?_, ⟨streakMult_low, streakMult_standard, streakMult_high⟩, ?_⟩
  · intro hw
    simp [streakPenalty, hw]
  · intro hw
    rw [streakPenalty, if_neg (by omega)]
  · intro w' hw'
    have hbase : 0 < min (22/100 : ℚ) (8/100 + (w' : ℚ) * 45/1000) := by
      have hw'' : (1 : ℚ) ≤ (w' : ℚ) := by exact_mod_cast hw'
      apply lt_min (by norm_num)
      nlinarith
    have hmul : streakMult "low" < streakMult "high" := by
      rw [streakMult_low, streakMult_high]
      norm_num
    unfold streakChance
    exact mul_lt_mul_of_pos_left hmul hbase

/-- C6 counterexample: the last-ranked of 5 competitors satisfies both
trailing-rank guards, so the house-edge modifier can add 2 steps (both
assist rolls hit, here with draws equal to 0), contradicting the claim
that a trailing competitor gains 1 step and not more. -/
theorem claim_c6_counterexample :
    (houseEdgeModifier (fun _ => 0) 4 5 "standard" 0).1 = 2 ∧
    1 < (houseEdgeModifier (fun _ => 0) 4 5 "standard" 0).1 := by
  constructor
  · norm_num [houseEdgeModifier, tierStrength_standard]
  · norm_num [houseEdgeModifier, tierStrength_standard]

/-- C6 (amended): per-tick house edge over 5 competitors: rank 0 loses
1 step with probability 0.55*s and rank 1 with 0.25*s; rank 3 (second
to last) gains 1 step with probability 0.45*s; rank 4 (last) rolls the
0.45*s assist and then the 0.65*s assist independently, gaining 1 step
for each roll that hits — so up to 2 steps; middle rank 2 is untouched;
s is 0.55 (low), 0.70 (standard), 1.00 (high). -/
theorem claim_c6_house_edge (rho : Nat → ℚ) (tierKey : String) (c : Nat) :
    (houseEdgeModifier rho 0 5 tierKey c =
      ((if rho c < 55/100 * tierStrength tierKey then -1 else 0), c + 1)) ∧
    (houseEdgeModifier rho 1 5 tierKey c =
      ((if rho c < 25/100 * tierStrength tierKey then -1 else 0), c + 1)) ∧
    (houseEdgeModifier rho 2 5 tierKey c = (0, c)) ∧
    (houseEdgeModifier rho 3 5 tierKey c =
      ((if rho c < 45/100 * tierStrength tierKey then 1 else 0), c + 1)) ∧
    (houseEdgeModifier rho 4 5 tierKey c =
      ((if rho c < 45/100 * tierStrength tierKey then 1 else 0) +
       (if rho (c + 1) < 65/100 * tierStrength tierKey then 1 else 0), c + 2)) ∧
    (tierStrength "low" = 55/100 ∧ tierStrength "standard" = 7/10 ∧
     tierStrength "high" = 1) := by
  refine ⟨?_, ?_, ?_, ?_, ?_, by rw [tierStrength_low]; norm_num,
    by rw [tierStrength_standard], by rw [tierStrength_high]⟩ <;>
    simp [houseEdgeModifier]

end Spirals



namespace Spirals

/-- C5 witness: a non-positive streak contributes 0, and at streak 5 the
high-tier trigger probability strictly exceeds the low-tier one. -/
theorem claim_c5_streak_penalty_witness :
    streakPenalty (fun _ => 0) (-3) "low" 7 = (0, 7) ∧
    streakChance 5 "low" < streakChance 5 "high" :=
  ⟨(claim_c5_streak_penalty (fun _ => 0) (-3) "low" 7).1 (by norm_num),
   (claim_c5_streak_penalty (fun _ => 0) (-3) "low" 7).2.2.2 5 (by norm_num)⟩

theorem applySeasonReset_tokens (st : SysState) :
    (applySeasonReset st).tokens = st.tokens := by
  unfold applySeasonReset
  split <;> rfl

theorem applySeasonReset_soloLast (st : SysState) :
    (applySeasonReset st).soloLast = st.soloLast := by
  unfold applySeasonReset
  split <;> rfl

theorem applySeasonReset_partyLast (st : SysState) :
    (applySeasonReset st).partyLast = st.partyLast := by
  unfold applySeasonReset
  split <;> rfl

theorem applySeasonReset_activeSolo (st : SysState) :
    (applySeasonReset st).activeSolo = st.activeSolo := by
  unfold applySeasonReset
  split <;> rfl

theorem applySeasonReset_statsRaces_le (st : SysState) (u : String) :
    (applySeasonReset st).statsRaces u ≤ st.statsRaces u := by
  unfold applySeasonReset
  split
  · exact Nat.zero_le _
  · exact Nat.le_refl _

end Spirals

namespace Spirals

theorem tierOf_invalid (tk : String) (h : tk ∉ ["low", "standard", "high"]) :
    tierOf tk = standardTier := by
  simp only [List.mem_cons, List.not_mem_nil, or_false, not_or] at h
  rw [tierOf, TIERS, if_neg h.1, if_neg h.2.1, if_neg h.2.2]
  rfl

theorem tierOf_standard : tierOf "standard" = standardTier := by
  rw [tierOf, TIERS, if_neg (by decide), if_pos rfl]
  rfl

theorem colourOf_invalid (ck : String) (h : ck ∉ colourKeys) : colourOf ck = "red" := by
  rw [colourOf, if_neg h]

theorem colourOf_red : colourOf "red" = "red" := by
  rw [colourOf, if_pos (by decide)]

/-- C7: a solo entry attempt with a token balance below the tier cost is
rejected synchronously: the result is an `Except.error`, the token map,
cooldown map and active-race registry are untouched, and the races
counter is not incremented. -/
theorem claim_c7_insufficient_tokens (st : SysState) (g uid : String) (now : Nat)
    (tk ck : String) (maxA : Nat)
    (h : st.tokens uid < (tierOf tk).tokenCost) :
    (∃ r, (soloEntry st g uid now tk ck maxA).2 = Except.error r) ∧
    (soloEntry st g uid now tk ck maxA).1.tokens = st.tokens ∧
    (soloEntry st g uid now tk ck maxA).1.soloLast = st.soloLast ∧
    (soloEntry st g uid now tk ck maxA).1.activeSolo = st.activeSolo ∧
    (soloEntry st g uid now tk ck maxA).1.statsRaces uid ≤ st.statsRaces uid := by
  simp only [soloEntry]
  split_ifs with h1 h2 h3 h4 h5
  · exact ⟨⟨RejectReason.maintenance, rfl⟩, rfl, rfl, rfl, Nat.le_refl _⟩
  · exact ⟨⟨RejectReason.guildCap, rfl⟩, applySeasonReset_tokens st,
      applySeasonReset_soloLast st, applySeasonReset_activeSolo st,
      applySeasonReset_statsRaces_le st uid⟩
  · exact ⟨⟨RejectReason.cooldown, rfl⟩, applySeasonReset_tokens st,
      applySeasonReset_soloLast st, applySeasonReset_activeSolo st,
      applySeasonReset_statsRaces_le st uid⟩
  · exact ⟨⟨RejectReason.duplicateRace, rfl⟩, applySeasonReset_tokens st,
      applySeasonReset_soloLast st, applySeasonReset_activeSolo st,
      applySeasonReset_statsRaces_le st uid⟩
  · exact ⟨⟨RejectReason.insufficientTokens, rfl⟩, applySeasonReset_tokens st,
      applySeasonReset_soloLast st, applySeasonReset_activeSolo st,
      applySeasonReset_statsRaces_le st uid⟩
  · exact absurd (by rw [applySeasonReset_tokens st]; exact h) h5

/-- C7 witness: a player with 0 tokens attempting a low-tier (cost 1)
solo entry is rejected with no state change. -/
theorem claim_c7_insufficient_tokens_witness :
    (∃ r, (soloEntry exampleState "g" "u" 1000000 "low" "red" 12).2 = Except.error r) ∧
    (soloEntry exampleState "g" "u" 1000000 "low" "red" 12).1.tokens = exampleState.tokens ∧
    (soloEntry exampleState "g" "u" 1000000 "low" "red" 12).1.soloLast = exampleState.soloLast ∧
    (soloEntry exampleState "g" "u" 1000000 "low" "red" 12).1.activeSolo = exampleState.activeSolo ∧
    (soloEntry exampleState "g" "u" 1000000 "low" "red" 12).1.statsRaces "u" ≤
      exampleState.statsRaces "u" :=
  claim_c7_insufficient_tokens exampleState "g" "u" 1000000 "low" "red" 12 (by decide)

theorem firstPartyFailure_ne_none (st : SysState) (cost now : Nat) :
    ∀ l : List (String × String),
    (∃ pr ∈ l, cooldownLeft (st.partyLast pr.1) PARTY_COOLDOWN_SEC now ≠ 0 ∨
      st.tokens pr.1 < cost) →
    firstPartyFailure st cost now l ≠ none := by
  intro l
  induction l with
  | nil =>
      rintro ⟨pr, hm, _⟩
      simp at hm
  | cons hd tl ih =>
      rintro ⟨pr, hm, hbad⟩
      by_cases h1 : cooldownLeft (st.partyLast hd.1) PARTY_COOLDOWN_SEC now ≠ 0
      · simp [firstPartyFailure, h1]
      · by_cases h2 : st.tokens hd.1 < cost
        · simp [firstPartyFailure, h1, h2]
        · rcases List.mem_cons.mp hm with rfl | hm'
          · rcases hbad with hb | hb
            · exact absurd hb h1
            · exact absurd hb h2
          · simp only [firstPartyFailure, if_neg h1, if_neg h2]
            exact ih ⟨pr, hm', hbad⟩

end Spirals

namespace Spirals

/-- C9: at party-race start every participant is re-checked (party
cooldown and token balance at least the tier cost) before any debit;
if any participant fails either check the party start is cancelled and
no participant is debited, cooldown-stamped, or has their races
counter incremented. -/
theorem claim_c9_party_all_or_nothing (st : SysState) (p : Party) (now : Nat)
    (hf : st.freezeRaces = false) (hl : p.stateLobby = true) (hfin : p.finalized = false)
    (hn : 2 ≤ p.players.length)
    (hbad : ∃ pr ∈ p.players,
      cooldownLeft (st.partyLast pr.1) PARTY_COOLDOWN_SEC now ≠ 0 ∨
      st.tokens pr.1 < (tierOf p.tierKey).tokenCost) :
    (partyStart st p now).2 = PartyStartResult.cancelled ∧
    (partyStart st p now).1.tokens = st.tokens ∧
    (partyStart st p now).1.partyLast = st.partyLast ∧
    ∀ u, (partyStart st p now).1.statsRaces u ≤ st.statsRaces u := by
  have hbad' : ∃ pr ∈ p.players,
      cooldownLeft ((applySeasonReset st).partyLast pr.1) PARTY_COOLDOWN_SEC now ≠ 0 ∨
      (applySeasonReset st).tokens pr.1 < (tierOf p.tierKey).tokenCost := by
    rw [applySeasonReset_partyLast, applySeasonReset_tokens]
    exact hbad
  have hfp := firstPartyFailure_ne_none (applySeasonReset st)
    (tierOf p.tierKey).tokenCost now p.players hbad'
  simp only [partyStart, hf, hl, hfin, Bool.false_eq_true, if_false, not_true,
    false_or, or_self, if_neg (Nat.not_lt.mpr hn)]
  cases hcase : firstPartyFailure (applySeasonReset st) (tierOf p.tierKey).tokenCost
      now p.players with
  | none => exact absurd hcase hfp
  | some r =>
      refine ⟨rfl, applySeasonReset_tokens st, applySeasonReset_partyLast st, ?_⟩
      intro u
      exact applySeasonReset_statsRaces_le st u

end Spirals

namespace Spirals

/-- C9 witness: a two-player low-tier party where every player has 0
tokens is cancelled at start with no debit, no cooldown stamp and no
races increment. -/
theorem claim_c9_party_all_or_nothing_witness :
    (partyStart exampleState exampleParty 1000000).2 = PartyStartResult.cancelled ∧
    (partyStart exampleState exampleParty 1000000).1.tokens = exampleState.tokens ∧
    (partyStart exampleState exampleParty 1000000).1.partyLast = exampleState.partyLast ∧
    ∀ u, (partyStart exampleState exampleParty 1000000).1.statsRaces u ≤
      exampleState.statsRaces u :=
  claim_c9_party_all_or_nothing exampleState exampleParty 1000000 rfl rfl rfl
    (by decide)
    ⟨("h", "red"), by decide, Or.inr (by decide)⟩

theorem partyStart_tierKey_congr (st : SysState) (p : Party) (now : Nat)
    (tk1 tk2 : String) (h : tierOf tk1 = tierOf tk2) :
    partyStart st { p with tierKey := tk1 } now =
      partyStart st { p with tierKey := tk2 } now := by
  simp only [partyStart]
  rw [h]

end Spirals

namespace Spirals

theorem assignPlaces_map_fst : ∀ (i0 : Nat) (l : List Racer),
    (assignPlaces i0 l).map Prod.fst = l := by
  intro i0 l
  induction l generalizing i0 with
  | nil => rfl
  | cons hd tl ih => simp [assignPlaces, ih]

theorem assignPlaces_map_snd : ∀ (i0 : Nat) (l : List Racer),
    (assignPlaces i0 l).map Prod.snd = List.range' i0 l.length := by
  intro i0 l
  induction l generalizing i0 with
  | nil => rfl
  | cons hd tl ih => simp [assignPlaces, ih, List.range'_succ]

theorem simTick_of_finalized (rho : Nat → ℚ) (cfg : SimCfg) (s : SimState)
    (h : s.finalized = true) : simTick rho cfg s = (s, false) := by
  simp [simTick, h]

theorem simTick_finalized_eq (rho : Nat → ℚ) (cfg : SimCfg) (s : SimState) :
    ((simTick rho cfg s).1).finalized = (s.finalized || (simTick rho cfg s).2) := by
  cases h : s.finalized with
  | true => simp [simTick, h]
  | false =>
      simp only [simTick, h, Bool.false_eq_true, if_false, Bool.false_or]
      split_ifs <;> rfl

theorem runSimCount_eq (rho : Nat → ℚ) (cfg : SimCfg) : ∀ n : Nat,
    runSimCount rho cfg n = (if (runSim rho cfg n).finalized = true then 1 else 0) := by
  intro n
  induction n with
  | zero => rfl
  | succ n ih =>
      cases hb : (runSim rho cfg n).finalized with
      | true =>
          rw [runSimCount, runSim, simTick_of_finalized rho cfg _ hb, ih, if_pos hb]
          simp [hb]
      | false =>
          rw [runSimCount, ih, if_neg (by rw [hb]; exact Bool.false_ne_true)]
          have hfin := simTick_finalized_eq rho cfg (runSim rho cfg n)
          rw [hb, Bool.false_or] at hfin
          rw [runSim, hfin]
          cases hb2 : (simTick rho cfg (runSim rho cfg n)).2 <;> simp

/-- C8: once every competitor has finished, `computePlaces` sorts by
ascending finish tick with ties broken by descending final position
(stably), assigns places 1..n, and the photo-finish flag is set exactly
when the top two placements share the same finish tick; the
finalization latch makes the computation fire at most once over any
run (exactly once from the moment the race has finalized). -/
theorem claim_c8_placement (rs : List Racer) :
    ((computePlaces rs).map Prod.snd = List.range' 1 rs.length) ∧
    List.Perm ((computePlaces rs).map Prod.fst) rs ∧
    List.Sorted placeLE ((computePlaces rs).map Prod.fst) ∧
    (photoFinishB (computePlaces rs) = true ↔
      ((computePlaces rs).getD 0 (defRacer, 0)).1.finishTick =
      ((computePlaces rs).getD 1 (defRacer, 0)).1.finishTick) ∧
    (∀ (rho : Nat → ℚ) (cfg : SimCfg) (n : Nat),
      runSimCount rho cfg n = (if (runSim rho cfg n).finalized = true then 1 else 0)) := by
  refine ⟨?_, ?_, ?_, ?_, fun rho cfg n => runSimCount_eq rho cfg n⟩
  · rw [computePlaces, assignPlaces_map_snd, List.length_insertionSort]
  · rw [computePlaces, assignPlaces_map_fst]
    exact List.perm_insertionSort placeLE rs
  · rw [computePlaces, assignPlaces_map_fst]
    exact List.sorted_insertionSort placeLE rs
  · rw [photoFinishB, decide_eq_true_eq]

end Spirals

namespace Spirals

theorem clampStep_le_three (x : Int) : (min 3 (max 0 x)).toNat ≤ 3 := by
  have h : min 3 (max 0 x) ≤ (3 : Int) := min_le_left _ _
  omega

theorem moveRacerAux_spec (rho : Nat → ℚ) (tierKey : String) (ws : Int) (bk : Bool)
    (tick rank total : Nat) (r : Racer) (c : Nat) (hpos : r.pos ≤ TRACK_LEN - 1) :
    (moveRacerAux rho tierKey ws bk tick rank total r c).2.1 ≤ 3 ∧
    r.pos ≤ (moveRacerAux rho tierKey ws bk tick rank total r c).1.pos ∧
    (moveRacerAux rho tierKey ws bk tick rank total r c).1.pos ≤ TRACK_LEN - 1 ∧
    (moveRacerAux rho tierKey ws bk tick rank total r c).1.pos ≤
      r.pos + (moveRacerAux rho tierKey ws bk tick rank total r c).2.1 ∧
    (r.finished = false →
      TRACK_LEN ≤ r.pos + (moveRacerAux rho tierKey ws bk tick rank total r c).2.1 →
      (moveRacerAux rho tierKey ws bk tick rank total r c).1.finished = true ∧
      (moveRacerAux rho tierKey ws bk tick rank total r c).1.finishTick = some tick) := by
  have hT : TRACK_LEN = 18 := rfl
  cases hf : r.finished with
  | true =>
      rw [moveRacerAux, if_pos hf]
      dsimp only
      refine ⟨Nat.zero_le 3, Nat.le_refl _, hpos, Nat.le_add_right _ _, ?_⟩
      intro h1
      exact absurd h1 (by decide)
  | false =>
      simp only [moveRacerAux, hf, Bool.false_eq_true, if_false]
      split_ifs with hcap
      · dsimp only
        refine ⟨clampStep_le_three _, hpos, Nat.le_refl _,
          Nat.le_trans (Nat.sub_le _ _) hcap, ?_⟩
        intro _ _
        exact ⟨rfl, rfl⟩
      · dsimp only
        refine ⟨clampStep_le_three _, Nat.le_add_right _ _, by omega, Nat.le_refl _, ?_⟩
        intro _ hc
        exact absurd hc hcap

end Spirals

namespace Spirals

theorem moveAll_spec (rho : Nat → ℚ) (cfg : SimCfg) (order : List Racer)
    (total tick : Nat) : ∀ (l : List Racer) (c : Nat),
    (∀ r ∈ l, r.pos ≤ TRACK_LEN - 1) →
    (moveAll rho cfg order total tick l c).1.length = l.length ∧
    (∀ r' ∈ (moveAll rho cfg order total tick l c).1, r'.pos ≤ TRACK_LEN - 1) ∧
    (∀ i : Nat, (l.getD i defRacer).pos ≤
      ((moveAll rho cfg order total tick l c).1.getD i defRacer).pos) := by
  intro l
  induction l with
  | nil =>
      intro c _
      refine ⟨rfl, ?_, fun i => Nat.le_refl _⟩
      intro r' hr'
      simp [moveAll] at hr'
  | cons hd tl ih =>
      intro c h
      have hhd := moveRacerAux_spec rho cfg.tierKey ((cfg.backedStreak hd.key).getD 0)
        (cfg.backedStreak hd.key).isSome tick (rankOf order hd.key) total hd c
        (h hd (List.mem_cons_self _ _))
      obtain ⟨ihlen, ihmem, ihle⟩ :=
        ih (moveRacerAux rho cfg.tierKey ((cfg.backedStreak hd.key).getD 0)
          (cfg.backedStreak hd.key).isSome tick (rankOf order hd.key) total hd c).2.2
          (fun r hr => h r (List.mem_cons_of_mem _ hr))
      refine ⟨?_, ?_, ?_⟩
      · simp only [moveAll, List.length_cons, ihlen]
      · intro r' hr'
        simp only [moveAll, List.mem_cons] at hr'
        rcases hr' with rfl | hr'
        · exact hhd.2.2.1
        · exact ihmem r' hr'
      · intro i
        cases i with
        | zero => exact hhd.2.1
        | succ j => exact ihle j

theorem simTick_racers_spec (rho : Nat → ℚ) (cfg : SimCfg) (s : SimState)
    (h : ∀ r ∈ s.racers, r.pos ≤ TRACK_LEN - 1) :
    (∀ r' ∈ ((simTick rho cfg s).1).racers, r'.pos ≤ TRACK_LEN - 1) ∧
    (∀ i : Nat, (s.racers.getD i defRacer).pos ≤
      (((simTick rho cfg s).1).racers.getD i defRacer).pos) := by
  cases hf : s.finalized with
  | true =>
      rw [simTick_of_finalized rho cfg s hf]
      exact ⟨h, fun i => Nat.le_refl _⟩
  | false =>
      simp only [simTick, hf, Bool.false_eq_true, if_false]
      split_ifs with hcomm hall
      · obtain ⟨_, hmem, hle⟩ := moveAll_spec rho cfg (List.insertionSort posDescLE s.racers)
          s.racers.length (s.tick + 1) s.racers (s.c + 2) h
        exact ⟨hmem, hle⟩
      · obtain ⟨_, hmem, hle⟩ := moveAll_spec rho cfg (List.insertionSort posDescLE s.racers)
          s.racers.length (s.tick + 1) s.racers (s.c + 2) h
        exact ⟨hmem, hle⟩
      · obtain ⟨_, hmem, hle⟩ := moveAll_spec rho cfg (List.insertionSort posDescLE s.racers)
          s.racers.length (s.tick + 1) s.racers (s.c + 1) h
        exact ⟨hmem, hle⟩
      · obtain ⟨_, hmem, hle⟩ := moveAll_spec rho cfg (List.insertionSort posDescLE s.racers)
          s.racers.length (s.tick + 1) s.racers (s.c + 1) h
        exact ⟨hmem, hle⟩

theorem runSim_pos_bound (rho : Nat → ℚ) (cfg : SimCfg) :
    ∀ n : Nat, ∀ r ∈ (runSim rho cfg n).racers, r.pos ≤ TRACK_LEN - 1 := by
  intro n
  induction n with
  | zero =>
      intro r hr
      simp only [runSim, initSim, initRacers, List.mem_map] at hr
      obtain ⟨k, _, rfl⟩ := hr
      norm_num [TRACK_LEN]
  | succ n ih =>
      intro r hr
      rw [runSim] at hr
      exact (simTick_racers_spec rho cfg _ ih).1 r hr

/-- C3: on every tick the step actually added to a competitor's
position is clamped to [0,3]; positions are monotonically
non-decreasing and capped at `TRACK_LEN - 1` throughout any run, and
when the cap is hit (the uncapped position would reach `TRACK_LEN`)
the competitor is marked finished with the current tick recorded. -/
theorem claim_c3_step_clamp_invariants :
    (∀ (rho : Nat → ℚ) (tierKey : String) (ws : Int) (bk : Bool)
       (tick rank total : Nat) (r : Racer) (c : Nat), r.pos ≤ TRACK_LEN - 1 →
       (moveRacerAux rho tierKey ws bk tick rank total r c).2.1 ≤ 3 ∧
       r.pos ≤ (moveRacerAux rho tierKey ws bk tick rank total r c).1.pos ∧
       (moveRacerAux rho tierKey ws bk tick rank total r c).1.pos ≤ TRACK_LEN - 1 ∧
       (r.finished = false →
         TRACK_LEN ≤ r.pos + (moveRacerAux rho tierKey ws bk tick rank total r c).2.1 →
         (moveRacerAux rho tierKey ws bk tick rank total r c).1.finished = true ∧
         (moveRacerAux rho tierKey ws bk tick rank total r c).1.finishTick = some tick)) ∧
    (∀ (rho : Nat → ℚ) (cfg : SimCfg) (n : Nat),
       (∀ r ∈ (runSim rho cfg n).racers, r.pos ≤ TRACK_LEN - 1) ∧
       (∀ i : Nat, ((runSim rho cfg n).racers.getD i defRacer).pos ≤
         ((runSim rho cfg (n + 1)).racers.getD i defRacer).pos)) := by
  constructor
  · intro rho tierKey ws bk tick rank total r c hpos
    obtain ⟨h1, h2, h3, _, h5⟩ :=
      moveRacerAux_spec rho tierKey ws bk tick rank total r c hpos
    exact ⟨h1, h2, h3, h5⟩
  · intro rho cfg n
    refine ⟨runSim_pos_bound rho cfg n, ?_⟩
    intro i
    have := (simTick_racers_spec rho cfg (runSim rho cfg n)
      (runSim_pos_bound rho cfg n)).2 i
    rw [runSim]
    exact this

/-- C3 witness: one movement update of a fresh racer satisfies the
clamp, monotonicity, cap and finish-marking properties. -/
theorem claim_c3_step_clamp_invariants_witness :
    (moveRacerAux (fun _ => 0) "low" 0 false 1 0 5 defRacer 0).2.1 ≤ 3 ∧
    defRacer.pos ≤ (moveRacerAux (fun _ => 0) "low" 0 false 1 0 5 defRacer 0).1.pos ∧
    (moveRacerAux (fun _ => 0) "low" 0 false 1 0 5 defRacer 0).1.pos ≤ TRACK_LEN - 1 ∧
    (defRacer.finished = false →
      TRACK_LEN ≤ defRacer.pos + (moveRacerAux (fun _ => 0) "low" 0 false 1 0 5 defRacer 0).2.1 →
      (moveRacerAux (fun _ => 0) "low" 0 false 1 0 5 defRacer 0).1.finished = true ∧
      (moveRacerAux (fun _ => 0) "low" 0 false 1 0 5 defRacer 0).1.finishTick = some 1) :=
  claim_c3_step_clamp_invariants.1 (fun _ => 0) "low" 0 false 1 0 5 defRacer 0 (by decide)

end Spirals

namespace Spirals

/-- C2: every float produced by `makeRng` lies in [0,1), and the
simulation consumes randomness only through the draw stream: two runs
over pointwise-equal streams (in particular two runs seeded alike)
produce identical simulation states — tick count, every position,
finish order and placement included. -/
theorem claim_c2_determinism :
    (∀ seed n : Nat, 0 ≤ makeRngQ seed n ∧ makeRngQ seed n < 1) ∧
    (∀ (rho1 rho2 : Nat → ℚ) (cfg : SimCfg) (n : Nat),
      (∀ k, rho1 k = rho2 k) → runSim rho1 cfg n = runSim rho2 cfg n) := by
  constructor
  · intro seed n
    have hlt : makeRngNum seed n < UINT32 := by
      rw [makeRngNum]
      simp only [mix32]
      exact Nat.mod_lt _ (by norm_num [UINT32])
    constructor
    · simp only [makeRngQ]
      positivity
    · simp only [makeRngQ]
      rw [div_lt_one (by norm_num [UINT32])]
      exact_mod_cast hlt
  · intro rho1 rho2 cfg n h
    rw [funext h]

/-- C2 witness: a re-run with the same seed and configuration yields
the same state, obtained from the determinism theorem with a
pointwise-equal stream. -/
theorem claim_c2_determinism_witness :
    (0 ≤ makeRngQ 123 0 ∧ makeRngQ 123 0 < 1) ∧
    runSim (makeRngQ 123) (soloCfg "standard" "red" 0) 3 =
      runSim (makeRngQ 123) (soloCfg "standard" "red" 0) 3 :=
  ⟨claim_c2_determinism.1 123 0,
   claim_c2_determinism.2 (makeRngQ 123) (makeRngQ 123) (soloCfg "standard" "red" 0) 3
     (fun _ => rfl)⟩

end Spirals

namespace Spirals

theorem filter_split {α : Type} {p : α → Bool} : ∀ {tr l1 l2 : List α} {x : α},
    tr.filter p = l1 ++ x :: l2 → ∃ t1 t2, tr = t1 ++ x :: t2 ∧ t2.filter p = l2 := by
  intro tr
  induction tr with
  | nil =>
      intro l1 l2 x h
      simp at h
  | cons e rest ih =>
      intro l1 l2 x h
      by_cases hp : p e
      · rw [List.filter_cons_of_pos hp] at h
        cases l1 with
        | nil =>
            simp only [List.nil_append, List.cons.injEq] at h
            exact ⟨[], rest, by simp [h.1], h.2⟩
        | cons a l1' =>
            simp only [List.cons_append, List.cons.injEq] at h
            obtain ⟨t1, t2, ht, hf⟩ := ih h.2
            exact ⟨e :: t1, t2, by simp [ht], hf⟩
      · rw [List.filter_cons_of_neg hp] at h
        obtain ⟨t1, t2, ht, hf⟩ := ih h
        exact ⟨e :: t1, t2, by simp [ht], hf⟩

theorem before_of_filter {p : PEvent → Bool} {tr : List PEvent} {x y : PEvent}
    (l1 l2 l3 : List PEvent) (h : tr.filter p = l1 ++ x :: (l2 ++ y :: l3)) :
    Before x y tr := by
  obtain ⟨t1, t2, ht, hf⟩ := filter_split h
  obtain ⟨t3, t4, ht2, _⟩ := filter_split hf
  exact ⟨t1, t3, t4, by rw [ht, ht2]; simp⟩

theorem getD_drop' {α : Type} (dflt : α) : ∀ (l : List α) (n m : Nat),
    (l.drop n).getD m dflt = l.getD (n + m) dflt := by
  intro l
  induction l with
  | nil =>
      intro n m
      simp
  | cons h t ih =>
      intro n m
      cases n with
      | zero => simp
      | succ n' => simp [Nat.succ_add, ih n' m]

theorem chainEventsFrom_split (frozen : Nat → Bool) (g : String) :
    ∀ (ts : List PayoutTask) (i0 d : Nat), d < ts.length →
    ∃ m1, chainEventsFrom frozen g i0 ts =
      m1 ++ taskEvents frozen g (i0 + d) (ts.getD d dfltTask) ++
        chainEventsFrom frozen g (i0 + d + 1) (ts.drop (d + 1)) := by
  intro ts
  induction ts with
  | nil =>
      intro i0 d hd
      simp at hd
  | cons t rest ih =>
      intro i0 d hd
      cases d with
      | zero =>
          refine ⟨[], ?_⟩
          simp [chainEventsFrom]
      | succ d' =>
          have hd' : d' < rest.length := by
            simpa using Nat.lt_of_succ_lt_succ hd
          obtain ⟨m1, hm⟩ := ih (i0 + 1) d' hd'
          refine ⟨taskEvents frozen g i0 t ++ m1, ?_⟩
          have e1 : i0 + 1 + d' = i0 + (d' + 1) := by omega
          rw [e1] at hm
          simp only [chainEventsFrom, hm, List.getD_cons_succ, List.drop_succ_cons,
            List.append_assoc]

end Spirals

namespace Spirals

/-- C1: in any valid schedule of the per-guild payout chains, tasks of
the same guild run strictly in enqueue order — the credit of an
earlier-enqueued task occurs before the credit of any later one, and
every credit is preceded by that task's 850 ms inter-send sleep; no
ordering holds across guilds: two valid schedules of the same
two-guild queues realize the two cross-guild credit orders. -/
theorem claim_c1_payout_ordering :
    (∀ (queues : List (String × List PayoutTask)) (frozen : Nat → Bool)
       (tr : List PEvent) (g : String) (ts : List PayoutTask),
       IsSchedule queues frozen tr → (g, ts) ∈ queues →
       (∀ i j : Nat, i < j → j < ts.length → frozen i = false → frozen j = false →
         Before (PEvent.credit g i (ts.getD i dfltTask).userId (ts.getD i dfltTask).amount)
           (PEvent.credit g j (ts.getD j dfltTask).userId (ts.getD j dfltTask).amount)
           tr) ∧
       (∀ i : Nat, i < ts.length → frozen i = false →
         Before (PEvent.sleepDelay g i 850)
           (PEvent.credit g i (ts.getD i dfltTask).userId (ts.getD i dfltTask).amount)
           tr)) ∧
    (∃ tr1 tr2 : List PEvent,
       IsSchedule demoQueues (fun _ => false) tr1 ∧
       IsSchedule demoQueues (fun _ => false) tr2 ∧
       Before (PEvent.credit "g1" 0 "a" 1) (PEvent.credit "g2" 0 "b" 2) tr1 ∧
       Before (PEvent.credit "g2" 0 "b" 2) (PEvent.credit "g1" 0 "a" 1) tr2) := by
  constructor
  · intro queues frozen tr g ts hsched hmem
    have hft := hsched (g, ts) hmem
    constructor
    · intro i j hij hj hfi hfj
      have hi : i < ts.length := Nat.lt_trans hij hj
      obtain ⟨m1, hm1⟩ := chainEventsFrom_split frozen g ts 0 i hi
      simp only [Nat.zero_add] at hm1
      have hlen : j - i - 1 < (ts.drop (i + 1)).length := by
        simp only [List.length_drop]
        omega
      obtain ⟨m2, hm2⟩ := chainEventsFrom_split frozen g (ts.drop (i + 1)) (i + 1)
        (j - i - 1) hlen
      have e2 : i + 1 + (j - i - 1) = j := by omega
      have e3 : (ts.drop (i + 1)).getD (j - i - 1) dfltTask = ts.getD j dfltTask := by
        rw [getD_drop', e2]
      rw [e2, e3] at hm2
      apply before_of_filter (m1 ++ [PEvent.sleepDelay g i 850])
        (m2 ++ [PEvent.sleepDelay g j 850])
        (chainEventsFrom frozen g (j + 1) ((ts.drop (i + 1)).drop (j - i - 1 + 1)))
      rw [hft, chainEvents, hm1, hm2]
      simp [taskEvents, hfi, hfj]
    · intro i hi hfi
      obtain ⟨m1, hm1⟩ := chainEventsFrom_split frozen g ts 0 i hi
      simp only [Nat.zero_add] at hm1
      apply before_of_filter m1 []
        (chainEventsFrom frozen g (i + 1) (ts.drop (i + 1)))
      rw [hft, chainEvents, hm1]
      simp [taskEvents, hfi]
  · refine ⟨[PEvent.sleepDelay "g1" 0 850, PEvent.credit "g1" 0 "a" 1,
      PEvent.sleepDelay "g2" 0 850, PEvent.credit "g2" 0 "b" 2],
      [PEvent.sleepDelay "g2" 0 850, PEvent.credit "g2" 0 "b" 2,
       PEvent.sleepDelay "g1" 0 850, PEvent.credit "g1" 0 "a" 1],
      ?_, ?_, ?_, ?_⟩
    · unfold IsSchedule
      decide
    · unfold IsSchedule
      decide
    · exact ⟨[PEvent.sleepDelay "g1" 0 850], [PEvent.sleepDelay "g2" 0 850], [], rfl⟩
    · exact ⟨[PEvent.sleepDelay "g2" 0 850], [PEvent.sleepDelay "g1" 0 850], [], rfl⟩

end Spirals

namespace Spirals

/-- C1 witness: in the fully sequential schedule of a single guild
with two enqueued tasks, the first task's credit precedes the
second's. -/
theorem claim_c1_payout_ordering_witness :
    Before (PEvent.credit "g" 0 "u1" 5) (PEvent.credit "g" 1 "u2" 7)
      [PEvent.sleepDelay "g" 0 850, PEvent.credit "g" 0 "u1" 5,
       PEvent.sleepDelay "g" 1 850, PEvent.credit "g" 1 "u2" 7] :=
  ((claim_c1_payout_ordering.1
      [("g", [{ userId := "u1", amount := 5 }, { userId := "u2", amount := 7 }])]
      (fun _ => false)
      [PEvent.sleepDelay "g" 0 850, PEvent.credit "g" 0 "u1" 5,
       PEvent.sleepDelay "g" 1 850, PEvent.credit "g" 1 "u2" 7]
      "g" [{ userId := "u1", amount := 5 }, { userId := "u2", amount := 7 }]
      (by unfold IsSchedule; decide) (by decide)).1
    0 1 (by decide) (by decide) rfl rfl)

end Spirals

namespace Spirals

/-- C10 counterexample: "toString" is an unrecognized tier key, yet the
JS lookup `TIERS["toString"]` hits the truthy `Object.prototype`
function, so `|| TIERS.standard` does not fire: the value kept is the
inherited one, whose `tokenCost` is `undefined` — not the standard
tier's cost 2.  This refutes "an unrecognized tier key is silently
mapped to the standard tier". -/
theorem claim_c10_proto_key_counterexample :
    jsTiersLookup "toString" = JsTierValue.inherited ∧
    tierOrStandard "toString" = JsTierValue.inherited ∧
    jsTokenCost (tierOrStandard "toString") = none ∧
    jsTokenCost (JsTierValue.tier standardTier) = some 2 :=
  ⟨rfl, rfl, rfl, rfl⟩

/-- C10 (amended): an unrecognized tier key that is not an
`Object.prototype` property name is silently mapped to the standard
tier, and the entry then behaves exactly as with "standard"; a tier
key naming an inherited `Object.prototype` property keeps the truthy
inherited value instead, so the standard-tier fallback does not fire
for it.  An unrecognized colour key is silently mapped to red.
Invalid colour keys, and invalid tier keys off the prototype chain,
never cause an entry rejection. -/
theorem claim_c10_invalid_keys_amended (tk ck : String) (st : SysState) (g uid : String)
    (now maxA : Nat) (p : Party)
    (htk : tk ∉ ["low", "standard", "high"]) (hproto : tk ∉ protoKeys)
    (hck : ck ∉ colourKeys) :
    tierOrStandard tk = JsTierValue.tier standardTier ∧
    tierOf tk = standardTier ∧
    colourOf ck = "red" ∧
    soloEntry st g uid now tk ck maxA = soloEntry st g uid now "standard" "red" maxA ∧
    partyStart st { p with tierKey := tk } now =
      partyStart st { p with tierKey := "standard" } now ∧
    (∀ pk ∈ protoKeys, tierOrStandard pk = JsTierValue.inherited) := by
  have hT : TIERS tk = none := by
    simp only [List.mem_cons, List.not_mem_nil, or_false, not_or] at htk
    rw [TIERS, if_neg htk.1, if_neg htk.2.1, if_neg htk.2.2]
  have h1 : tierOf tk = tierOf "standard" := by
    rw [tierOf_invalid tk htk, tierOf_standard]
  have h2 : colourOf ck = colourOf "red" := by
    rw [colourOf_invalid ck hck, colourOf_red]
  refine ⟨?_, h1.trans tierOf_standard, h2.trans colourOf_red, ?_, ?_, ?_⟩
  · simp only [tierOrStandard, jsTiersLookup, hT, if_neg hproto]
  · simp only [soloEntry]
    rw [h1, h2]
  · exact partyStart_tierKey_congr st p now tk "standard" h1
  · intro pk hpk
    simp only [protoKeys, List.mem_cons, List.not_mem_nil, or_false] at hpk
    rcases hpk with rfl | rfl | rfl | rfl | rfl | rfl | rfl | rfl | rfl | rfl | rfl | rfl <;>
      rfl

/-- C10 witness: the unrecognized key "mystery" (off the prototype
chain) resolves to the standard tier and "pink" to red, and solo entry
and party start behave as with the defaults. -/
theorem claim_c10_invalid_keys_amended_witness :
    tierOrStandard "mystery" = JsTierValue.tier standardTier ∧
    tierOf "mystery" = standardTier ∧
    colourOf "pink" = "red" ∧
    soloEntry exampleState "g" "u" 1000000 "mystery" "pink" 12 =
      soloEntry exampleState "g" "u" 1000000 "standard" "red" 12 ∧
    partyStart exampleState { exampleParty with tierKey := "mystery" } 1000000 =
      partyStart exampleState { exampleParty with tierKey := "standard" } 1000000 :=
  have h := claim_c10_invalid_keys_amended "mystery" "pink" exampleState "g" "u"
    1000000 12 exampleParty (by decide) (by decide) (by decide)
  ⟨h.1, h.2.1, h.2.2.1, h.2.2.2.1, h.2.2.2.2.1⟩

end Spirals
